import Mathlib

/-!
Shallow embedding of the render-and-deploy pipeline of `src/cicd/cli.py`
(an OpenShift/Ansible CI-CD orchestrator), together with theorems settling
the specification claims about it.

Text is modelled as `List Char`; a Python `dict` (and likewise the output
directory, a map from filename to file content) is modelled as the function
`StrMap` from keys to optional values, updated pointwise on assignment.
External collaborators (the Jinja renderer, the Kubernetes API client, the
subprocess exit codes of `oc`/`kubectl`, the Ansible runner, the JSON
parser) are oracles passed in as function parameters; everything the
repository itself computes is translated directly from the source.
-/

namespace Cicd

/-- Model of a Python `dict` restricted to its lookup behaviour: a map from
string keys to optional string values. The same type models the output
directory of the renderer (filename to file content). -/
def StrMap : Type := List Char → Option (List Char)

/-- The empty map: `values = {}` in `_load_env_values`, or an output
directory state. -/
def emptyMap : StrMap := fun _ => none

/-- Model of `d[k] = v` on a Python dict (or of writing file `k` with
content `v` into a directory): pointwise update. -/
def setKey (m : StrMap) (k v : List Char) : StrMap :=
  fun q => if q = k then some v else m q

/-- Whitespace characters stripped by Python `str.strip()` (ASCII subset:
space, tab, newline, carriage return, vertical tab, form feed). -/
def pySpace (c : Char) : Bool :=
  c = ' ' || c = '\t' || c = '\n' || c = '\r' || c = '\x0b' || c = '\x0c'

/-- Python `str.strip()` with no argument: drop leading and trailing
whitespace. -/
def stripWs (l : List Char) : List Char :=
  ((l.dropWhile pySpace).reverse.dropWhile pySpace).reverse

/-- The guard of the loader loop in `_load_env_values` (src/cicd/cli.py
lines 36-39): after stripping, a line is processed only when it is
nonempty, does not start with a hash, and contains an equals sign. -/
def wellFormedLine (raw : List Char) : Bool :=
  let line := stripWs raw
  !(line.isEmpty) && !(line.head? == some '#') && line.contains '='

/-- The key produced by `k, v = line.split("=", 1)` followed by
`k.strip()`: everything before the first equals sign of the stripped
line, stripped again. -/
def lineKey (raw : List Char) : List Char :=
  stripWs ((stripWs raw).takeWhile (fun c => !(c = '=')))

/-- The value produced by `line.split("=", 1)` followed by `v.strip()`:
everything after the first equals sign of the stripped line, stripped. -/
def lineVal (raw : List Char) : List Char :=
  stripWs (((stripWs raw).dropWhile (fun c => !(c = '='))).drop 1)

/-- One iteration of the loop body of `_load_env_values` (src/cicd/cli.py
lines 36-41): skip blank, comment and equals-free lines, otherwise split
on the first equals sign, strip key and value, and assign. -/
def processLine (m : StrMap) (raw : List Char) : StrMap :=
  if wellFormedLine raw then setKey m (lineKey raw) (lineVal raw) else m

/-- Embedding of `_load_env_values` applied to the list of lines of the
values file (`read_text().splitlines()`): fold the loop body over the
lines starting from the empty dict. -/
def load_env_values (lines : List (List Char)) : StrMap :=
  lines.foldl processLine emptyMap

/-- Embedding of the `if not values_file: return values` guard of
`_load_env_values`: with no values file the loader returns the empty
mapping; otherwise it parses the lines of the file. -/
def load_env_values_opt (vlines : Option (List (List Char))) : StrMap :=
  match vlines with
  | none => emptyMap
  | some lines => load_env_values lines

/-- The optional write a processed line performs: `none` for skipped
lines, otherwise the (key, value) pair assigned. -/
def lineWrite (raw : List Char) : Option (List Char × List Char) :=
  if wellFormedLine raw then some (lineKey raw, lineVal raw) else none

theorem processLine_eq_lineWrite (m : StrMap) (raw : List Char) :
    processLine m raw =
      match lineWrite raw with
      | none => m
      | some kv => setKey m kv.1 kv.2 := by
  unfold processLine lineWrite
  by_cases h : wellFormedLine raw = true <;> simp [h]

/-- Generic characterization of a left fold of optional writes over a
`StrMap`: the value at key `q` is the payload of the last write whose key
is `q`, or the initial value when no item writes to `q`. -/
theorem foldl_writes_lookup {α : Type} (f : α → Option (List Char × List Char)) :
    ∀ (l : List α) (m : StrMap) (q : List Char),
      (l.foldl (fun st a =>
          match f a with
          | none => st
          | some kv => setKey st kv.1 kv.2) m) q =
        match ((l.filterMap f).filter (fun kv => kv.1 = q)).getLast? with
        | some kv => some kv.2
        | none => m q := by
  intro l
  induction l with
  | nil => intro m q; rfl
  | cons a t ih =>
    intro m q
    simp only [List.foldl_cons, List.filterMap_cons]
    rcases ha : f a with _ | ⟨k, v⟩
    · simp only [ha]
      exact ih m q
    · simp only [ha]
      by_cases hk : k = q
      · subst hk
        have hfc : List.filter (fun kv => decide (kv.1 = k)) ((k, v) :: List.filterMap f t)
            = (k, v) :: List.filter (fun kv => decide (kv.1 = k)) (List.filterMap f t) := by
          simp [List.filter_cons]
        rw [ih, hfc, List.getLast?_cons]
        rcases hLast :
            (List.filter (fun kv => decide (kv.1 = k)) (List.filterMap f t)).getLast?
            with _ | ⟨kv⟩
        · rw [hLast]
          exact if_pos rfl
        · rw [hLast]
          rfl
      · have hfc : List.filter (fun kv => decide (kv.1 = q)) ((k, v) :: List.filterMap f t)
            = List.filter (fun kv => decide (kv.1 = q)) (List.filterMap f t) := by
          simp [List.filter_cons, hk]
        have hsk : setKey m k v q = m q := by
          unfold setKey
          exact if_neg (fun h => hk h.symm)
        rw [ih, hfc, hsk]

/-- The loader is the optional-write fold of `lineWrite`. -/
theorem load_env_values_eq_fold (lines : List (List Char)) :
    load_env_values lines =
      lines.foldl (fun st a =>
        match lineWrite a with
        | none => st
        | some kv => setKey st kv.1 kv.2) emptyMap := by
  unfold load_env_values
  induction lines using List.reverseRecOn with
  | nil => rfl
  | append_singleton t a ih =>
    simp only [List.foldl_append, List.foldl_cons, List.foldl_nil, ih,
      processLine_eq_lineWrite]

/-- Lookup characterization of the loader: the value at key `k` comes from
the last well-formed line whose stripped key equals `k`; keys with no such
line are absent. -/
theorem load_env_values_lookup (lines : List (List Char)) (k : List Char) :
    load_env_values lines k =
      match ((lines.filterMap lineWrite).filter (fun kv => kv.1 = k)).getLast? with
      | some kv => some kv.2
      | none => none := by
  rw [load_env_values_eq_fold]
  exact foldl_writes_lookup lineWrite lines emptyMap k

theorem filterMap_lineWrite_filter (lines : List (List Char)) (k : List Char) :
    (lines.filterMap lineWrite).filter (fun kv => kv.1 = k) =
      (lines.filter (fun l => wellFormedLine l && decide (lineKey l = k))).map
        (fun l => (lineKey l, lineVal l)) := by
  induction lines with
  | nil => rfl
  | cons a t ih =>
    simp only [List.filterMap_cons, List.filter_cons]
    by_cases hw : wellFormedLine a = true
    · simp only [lineWrite, hw, if_pos, Bool.true_and]
      by_cases hk : lineKey a = k
      · simp [List.filter_cons, hk, ih]
      · simp [List.filter_cons, hk, ih]
    · have hw' : wellFormedLine a = false := Bool.eq_false_iff.mpr hw
      simp [lineWrite, hw', ih]

/-- Characterization of the loader: the value stored at key `k` is the
value of the last line that is well formed and whose stripped key is `k`,
and no entry exists when there is no such line. -/
theorem load_env_values_char (lines : List (List Char)) (k : List Char) :
    load_env_values lines k =
      ((lines.filter (fun l => wellFormedLine l && decide (lineKey l = k))).getLast?).map
        lineVal := by
  rw [load_env_values_lookup, filterMap_lineWrite_filter, List.getLast?_map]
  cases (lines.filter (fun l => wellFormedLine l && decide (lineKey l = k))).getLast? with
  | none => rfl
  | some l => rfl

/-- C6: for every values file, the mapping built by `_load_env_values`
associates each key with the value of the last well-formed `KEY=VALUE`
line for that key (later duplicates overwrite earlier ones), where each
line is split only on its first equals sign and key and value are both
whitespace-stripped. -/
theorem c6_last_occurrence_wins (lines : List (List Char)) (k : List Char) :
    load_env_values lines k =
      ((lines.filter (fun l => wellFormedLine l && decide (lineKey l = k))).getLast?).map
        lineVal :=
  load_env_values_char lines k

/-- C7: the mapping built by `_load_env_values` has an entry at key `k`
only when some input line is well formed (nonempty after stripping, not a
`#` comment, and containing an equals sign) with stripped key `k`; blank
lines, comment lines and equals-free lines are skipped and never appear
as keys. -/
theorem c7_only_wellformed_lines (lines : List (List Char)) (k : List Char)
    (h : load_env_values lines k ≠ none) :
    ∃ raw, raw ∈ lines ∧ wellFormedLine raw = true ∧ lineKey raw = k := by
  rw [load_env_values_char] at h
  cases hLast : (lines.filter (fun l => wellFormedLine l && decide (lineKey l = k))).getLast?
      with
  | none => rw [hLast] at h; exact absurd rfl h
  | some raw =>
    have hmem : raw ∈ lines.filter (fun l => wellFormedLine l && decide (lineKey l = k)) :=
      List.mem_of_mem_getLast? hLast
    rcases List.mem_filter.mp hmem with ⟨hraw, hpred⟩
    rcases (Bool.and_eq_true _ _).mp hpred with ⟨hwf, hkey⟩
    exact ⟨raw, hraw, hwf, of_decide_eq_true hkey⟩

/-- Closed witness for C7 on the concrete file with lines
`# comment`, an empty line, and `A=1`: the key `A` is present and the
theorem yields a well-formed source line for it. -/
theorem c7_only_wellformed_lines_witness :
    load_env_values [('#' :: ' ' :: 'c' :: []), [], ('A' :: '=' :: '1' :: [])]
        ('A' :: []) ≠ none ∧
      ∃ raw, raw ∈ [('#' :: ' ' :: 'c' :: []), [], ('A' :: '=' :: '1' :: [])] ∧
        wellFormedLine raw = true ∧ lineKey raw = ('A' :: []) :=
  ⟨by decide, c7_only_wellformed_lines _ _ (by decide)⟩

/-- C10: a line whose stripped form begins with an equals sign (empty or
whitespace-only key part) is not skipped by `_load_env_values`: the loop
body stores the stripped value under the empty-string key. -/
theorem c10_empty_key_entry (m : StrMap) (raw : List Char)
    (h : (stripWs raw).head? = some '=') :
    processLine m raw = setKey m [] (lineVal raw) := by
  obtain ⟨rest, hrest⟩ : ∃ rest, stripWs raw = '=' :: rest := by
    cases hs : stripWs raw with
    | nil => rw [hs] at h; exact absurd h (by simp)
    | cons c cs =>
      rw [hs] at h
      simp only [List.head?_cons, Option.some.injEq] at h
      exact ⟨cs, by rw [h]⟩
  have hwf : wellFormedLine raw = true := by
    unfold wellFormedLine
    rw [hrest]
    simp [List.contains]
  have hkey : lineKey raw = [] := by
    unfold lineKey
    rw [hrest]
    simp [List.takeWhile, stripWs]
  unfold processLine
  rw [hwf, hkey]
  simp

/-- Closed witness for C10 on the concrete line `  = hello ` (with `m` the
empty mapping): the stripped line starts with an equals sign, and the
processed line stores the stripped value under the empty key. -/
theorem c10_empty_key_entry_witness :
    (stripWs (' ' :: ' ' :: '=' :: ' ' :: 'h' :: 'i' :: ' ' :: [])).head? = some '=' ∧
      processLine emptyMap (' ' :: ' ' :: '=' :: ' ' :: 'h' :: 'i' :: ' ' :: []) =
        setKey emptyMap [] (lineVal (' ' :: ' ' :: '=' :: ' ' :: 'h' :: 'i' :: ' ' :: [])) :=
  ⟨by decide, c10_empty_key_entry _ _ (by decide)⟩

/-- Matcher for the `fnmatch` fragment that `Path.glob` uses for the
patterns of this repository: literal characters plus the `*` wildcard
(matching any, possibly empty, character sequence), matched against the
whole filename and case-sensitively (POSIX semantics of `pathlib`). -/
def globMatch : List Char → List Char → Bool
  | [], s => s.isEmpty
  | '*' :: ps, s => (s.tails).any (fun t => globMatch ps t)
  | p :: ps, s =>
    match s with
    | [] => false
    | c :: cs => p == c && globMatch ps cs

/-- The literal glob pattern `*.y*ml` that `_apply_with_python` and
`_apply_with_oc` pass to `Path.glob` (src/cicd/cli.py lines 128 and 140). -/
def yamlPat : List Char := '*' :: '.' :: 'y' :: '*' :: 'm' :: 'l' :: []

/-- The file list both appliers iterate over:
`sorted(manifest_dir.glob("*.y*ml"))` — the names in the directory that
match the pattern, sorted lexicographically (Python sorts same-directory
paths by their name strings, by code point). -/
def applierFiles (names : List (List Char)) : List (List Char) :=
  List.insertionSort (fun a b => a ≤ b) (names.filter (globMatch yamlPat))

theorem globMatch_star (ps s : List Char) :
    globMatch ('*' :: ps) s = true ↔ ∃ a b, s = a ++ b ∧ globMatch ps b = true := by
  show (s.tails.any (fun t => globMatch ps t)) = true ↔ _
  rw [List.any_eq_true]
  constructor
  · rintro ⟨t, ht, hm⟩
    rcases (List.mem_tails t s).mp ht with ⟨a, ha⟩
    exact ⟨a, t, ha.symm, hm⟩
  · rintro ⟨a, b, hab, hm⟩
    exact ⟨b, (List.mem_tails b s).mpr ⟨a, hab.symm⟩, hm⟩

theorem globMatch_ml (b : List Char) :
    globMatch ('m' :: 'l' :: []) b = true ↔ b = 'm' :: 'l' :: [] := by
  match b with
  | [] => simp [globMatch]
  | c1 :: [] => simp [globMatch]
  | c1 :: c2 :: [] =>
    show (('m' == c1) && (('l' == c2) && true)) = true ↔
      (c1 :: c2 :: [] : List Char) = 'm' :: 'l' :: []
    rw [Bool.and_eq_true, Bool.and_eq_true, beq_iff_eq, beq_iff_eq]
    constructor
    · rintro ⟨h1, h2, _⟩
      rw [← h1, ← h2]
    · intro h
      injection h with h1 h2
      injection h2 with h2 h3
      exact ⟨h1.symm, h2.symm, rfl⟩
  | c1 :: c2 :: c3 :: t =>
    show (('m' == c1) && (('l' == c2) && false)) = true ↔
      (c1 :: c2 :: c3 :: t : List Char) = 'm' :: 'l' :: []
    constructor
    · intro h
      rw [Bool.and_eq_true, Bool.and_eq_true] at h
      exact absurd h.2.2 (by simp)
    · intro h
      injection h with h1 h2
      injection h2 with h2 h3
      exact absurd h3 (List.cons_ne_nil _ _)

theorem globMatch_dotY (s : List Char) :
    globMatch ('.' :: 'y' :: '*' :: 'm' :: 'l' :: []) s = true ↔
      ∃ b, s = '.' :: 'y' :: (b ++ ('m' :: 'l' :: [])) := by
  match s with
  | [] => simp [globMatch]
  | c1 :: [] => simp [globMatch]
  | c1 :: c2 :: t =>
    show (('.' == c1) && (('y' == c2) && globMatch ('*' :: 'm' :: 'l' :: []) t)) = true ↔ _
    simp only [Bool.and_eq_true, beq_iff_eq]
    rw [globMatch_star]
    constructor
    · rintro ⟨h1, h2, ⟨a, b, hab, hm⟩⟩
      rcases (globMatch_ml b).mp hm with rfl
      exact ⟨a, by rw [← h1, ← h2, hab]⟩
    · rintro ⟨b, hb⟩
      rcases hb with ⟨rfl, rfl, rfl⟩
      exact ⟨rfl, rfl, b, 'm' :: 'l' :: [], rfl, (globMatch_ml _).mpr rfl⟩

/-- Correctness of the source glob: a name matches `*.y*ml` exactly when
it decomposes as anything, then `.y`, then anything, then a final `ml`. -/
theorem globMatch_yaml (n : List Char) :
    globMatch yamlPat n = true ↔
      ∃ a b, n = a ++ ('.' :: 'y' :: b) ++ ('m' :: 'l' :: []) := by
  have hpat : yamlPat = '*' :: ('.' :: 'y' :: '*' :: 'm' :: 'l' :: []) := rfl
  rw [hpat, globMatch_star]
  constructor
  · rintro ⟨a, b, hab, hm⟩
    rcases (globMatch_dotY b).mp hm with ⟨b2, rfl⟩
    exact ⟨a, b2, by rw [hab]; simp⟩
  · rintro ⟨a, b, rfl⟩
    refine ⟨a, '.' :: 'y' :: (b ++ ('m' :: 'l' :: [])), by simp, ?_⟩
    exact (globMatch_dotY _).mpr ⟨b, rfl⟩

/-- Modelled from the words of claim C4 (not from the source): a filename
matching a `*.yml` or `*.yaml` glob with case-insensitive extension
matching. -/
def claimYamlName (n : List Char) : Bool :=
  ('.' :: 'y' :: 'm' :: 'l' :: []).isSuffixOf (n.map Char.toLower) ||
    ('.' :: 'y' :: 'a' :: 'm' :: 'l' :: []).isSuffixOf (n.map Char.toLower)

/-- Claim C4 as written: the appliers process exactly the directory
entries whose names match `*.yml` or `*.yaml` case-insensitively on the
extension, sorted by filename. -/
def claimC4statement : Prop :=
  ∀ names : List (List Char),
    List.Sorted (fun a b => a ≤ b) (applierFiles names) ∧
      ∀ n, n ∈ applierFiles names ↔ n ∈ names ∧ claimYamlName n = true

/-- C4 counterexample: a directory containing the single file `A.YML`.
The claim as stated requires the applier to process it (its extension is
`.yml` up to case), but `Path.glob` with pattern `*.y*ml` is
case-sensitive on POSIX, so `applierFiles` does not select it. -/
theorem c4_counterexample : ¬ claimC4statement := by
  intro h
  have hmem := ((h [('A' :: '.' :: 'Y' :: 'M' :: 'L' :: [])]).2
      ('A' :: '.' :: 'Y' :: 'M' :: 'L' :: [])).mpr ⟨by decide, by decide⟩
  exact absurd hmem (by decide)

/-- C4 (amended): for every manifest directory, the appliers process
exactly the files directly inside it whose names match the glob `*.y*ml`
case-sensitively — names that decompose as anything, `.y`, anything, and
a final `ml`, which includes every lowercase `.yml` and `.yaml` name but
excludes uppercase variants and admits extensions such as `.yooml` — and
process them sorted by filename for deterministic ordering. -/
theorem c4_amended_glob_selection (names : List (List Char)) :
    List.Sorted (fun a b => a ≤ b) (applierFiles names) ∧
      ∀ n, n ∈ applierFiles names ↔
        n ∈ names ∧ ∃ a b, n = a ++ ('.' :: 'y' :: b) ++ ('m' :: 'l' :: []) := by
  refine ⟨List.sorted_insertionSort _ _, fun n => ?_⟩
  rw [applierFiles, (List.perm_insertionSort _ _).mem_iff, List.mem_filter]
  constructor
  · rintro ⟨h1, h2⟩
    exact ⟨h1, (globMatch_yaml n).mp h2⟩
  · rintro ⟨h1, h2⟩
    exact ⟨h1, (globMatch_yaml n).mpr h2⟩

/-- Embedding of the loop of `_apply_with_oc` (src/cicd/cli.py lines
140-143) over an already-selected file list. Each iteration runs
`subprocess.check_call(["oc", "apply", "-f", file])`; `ocExit` is the
oracle giving the exit code of the `oc` binary on each file. A non-zero
exit makes `check_call` raise `CalledProcessError` carrying that exit
code, aborting the loop. The first component records the files invoked,
in order; the second is the normal or exceptional result. -/
def ocLoop (ocExit : List Char → Nat) : List (List Char) → List (List Char) × Except Nat Unit
  | [] => ([], Except.ok ())
  | f :: fs =>
    if ocExit f = 0 then
      let r := ocLoop ocExit fs
      (f :: r.1, r.2)
    else ([f], Except.error (ocExit f))

/-- Embedding of `_apply_with_oc` (src/cicd/cli.py lines 139-143):
iterate `oc apply -f` over `sorted(manifest_dir.glob("*.y*ml"))`. -/
def apply_with_oc (ocExit : List Char → Nat) (names : List (List Char)) :
    List (List Char) × Except Nat Unit :=
  ocLoop ocExit (applierFiles names)

/-- Result of `_apply_with_python`: whether the kubeconfig-load warning
was printed, the files submitted to the cluster API in order, and the
files whose submission raised and was logged as a warning. -/
structure PyApplyResult where
  loginWarned : Bool
  attempted : List (List Char)
  failedFiles : List (List Char)
deriving DecidableEq

/-- Embedding of the loop of `_apply_with_python` (src/cicd/cli.py lines
128-135): every file is submitted; `utils.create_from_yaml` failures are
caught per file (`apiOk` is the oracle saying whether the submission
succeeds) and recorded as warnings without stopping the loop. -/
def pyLoop (apiOk : List Char → Bool) : List (List Char) → List (List Char) × List (List Char)
  | [] => ([], [])
  | f :: fs =>
    let r := pyLoop apiOk fs
    (f :: r.1, if apiOk f then r.2 else f :: r.2)

/-- Embedding of `_apply_with_python` (src/cicd/cli.py lines 124-135):
`_kube_login_if_needed` catches any credential-load failure and only
warns (`loginOk` oracle), then every file of
`sorted(manifest_dir.glob("*.y*ml"))` is submitted through the API
client, best-effort. -/
def apply_with_python (loginOk : Bool) (apiOk : List Char → Bool)
    (names : List (List Char)) : PyApplyResult :=
  let r := pyLoop apiOk (applierFiles names)
  ⟨!loginOk, r.1, r.2⟩

/-- The three application strategies of the spec. -/
inductive Strategy
  | nativeCli
  | apiClient
  | secondaryCli
deriving DecidableEq

/-- Outcome of the `apply` command: normal completion (the final
`Apply complete.` line) with the strategy that ran, the
manifest-directory-missing failure (`typer.Exit(1)`), an uncaught
`CalledProcessError` propagating a child exit code, or the
neither-oc-nor-kubectl failure (the red message followed by re-raising). -/
inductive ApplyOutcome
  | completed (strategy : Strategy)
  | dirNotFound
  | subprocessFailure (code : Nat)
  | toolUnavailable
deriving DecidableEq

/-- Observable trace of one run of the `apply` command: the files passed
to `oc apply -f` in order, the files submitted through the python client
in order, the files whose python submission failed (warned), whether the
bulk `kubectl apply -f <dir>` call ran, and the outcome. -/
structure ApplyResult where
  ocInvocations : List (List Char)
  pyAttempted : List (List Char)
  pyFailed : List (List Char)
  kubectlBulk : Bool
  outcome : ApplyOutcome
deriving DecidableEq

/-- Embedding of the `apply` command (src/cicd/cli.py lines 146-168).
Oracles: `dirExists` models `mdir.exists()`; `ocAvail` and
`kubectlAvail` model `_oc_available()` and `_kubectl_available()`;
`pyUnexpected` models an exception escaping the per-file handler of
`_apply_with_python` (for example `ApiClient()` failing), which the
`except` around `_apply_with_python` catches; `kubectlExit` is the exit
code of the bulk `kubectl apply -f <dir>` call. -/
def apply_cmd (dirExists ocAvail kubectlAvail loginOk : Bool)
    (ocExit : List Char → Nat) (apiOk : List Char → Bool) (pyUnexpected : Bool)
    (kubectlExit : Nat) (names : List (List Char)) : ApplyResult :=
  if !dirExists then ⟨[], [], [], false, ApplyOutcome.dirNotFound⟩
  else if ocAvail then
    let r := apply_with_oc ocExit names
    match r.2 with
    | Except.ok _ => ⟨r.1, [], [], false, ApplyOutcome.completed Strategy.nativeCli⟩
    | Except.error code => ⟨r.1, [], [], false, ApplyOutcome.subprocessFailure code⟩
  else if pyUnexpected then
    if kubectlAvail then
      ⟨[], [], [], true,
        if kubectlExit = 0 then ApplyOutcome.completed Strategy.secondaryCli
        else ApplyOutcome.subprocessFailure kubectlExit⟩
    else ⟨[], [], [], false, ApplyOutcome.toolUnavailable⟩
  else
    let r := apply_with_python loginOk apiOk names
    ⟨[], r.attempted, r.failedFiles, false, ApplyOutcome.completed Strategy.apiClient⟩

theorem ocLoop_all_zero (ocExit : List Char → Nat) :
    ∀ l : List (List Char), (∀ g ∈ l, ocExit g = 0) → ocLoop ocExit l = (l, Except.ok ()) := by
  intro l
  induction l with
  | nil => intro _; rfl
  | cons f fs ih =>
    intro h
    have hf : ocExit f = 0 := h f (List.mem_cons_self f fs)
    have hfs := ih (fun g hg => h g (List.mem_cons_of_mem f hg))
    simp [ocLoop, hf, hfs]

theorem ocLoop_fail_fast (ocExit : List Char → Nat) :
    ∀ (pre : List (List Char)) (f : List Char) (post : List (List Char)),
      (∀ g ∈ pre, ocExit g = 0) → ocExit f ≠ 0 →
        ocLoop ocExit (pre ++ f :: post) = (pre ++ (f :: []), Except.error (ocExit f)) := by
  intro pre
  induction pre with
  | nil =>
    intro f post _ hf
    simp [ocLoop, hf]
  | cons g gs ih =>
    intro f post hpre hf
    have hg : ocExit g = 0 := hpre g (List.mem_cons_self g gs)
    have hgs := ih f post (fun x hx => hpre x (List.mem_cons_of_mem g hx)) hf
    simp [ocLoop, hg, hgs]

theorem pyLoop_char (apiOk : List Char → Bool) :
    ∀ l : List (List Char), pyLoop apiOk l = (l, l.filter (fun f => !(apiOk f))) := by
  intro l
  induction l with
  | nil => rfl
  | cons f fs ih =>
    by_cases hf : apiOk f = true
    · simp [pyLoop, ih, List.filter_cons, hf]
    · have hf' : apiOk f = false := Bool.eq_false_iff.mpr hf
      simp [pyLoop, ih, List.filter_cons, hf']

/-- The filename `a.yml`, used by concrete witnesses. -/
def aYml : List Char := 'a' :: '.' :: 'y' :: 'm' :: 'l' :: []

/-- The filename `b.yml`, used by concrete witnesses. -/
def bYml : List Char := 'b' :: '.' :: 'y' :: 'm' :: 'l' :: []

/-- C1: under the native-CLI strategy (oc present, directory present),
the `apply` command makes one `oc apply -f` invocation per matching file
in sorted filename order: while every invocation exits zero the whole
sorted list is invoked and the command completes, and a non-zero exit on
a file aborts immediately — that file is the last invocation, no later
file is attempted — with the command failing by propagating that file
exit code (the uncaught `CalledProcessError`). -/
theorem c1_native_fail_fast (kubectlAvail loginOk : Bool)
    (ocExit : List Char → Nat) (apiOk : List Char → Bool) (pyUnexpected : Bool)
    (kubectlExit : Nat) (names : List (List Char))
    (pre : List (List Char)) (f : List Char) (post : List (List Char))
    (h1 : applierFiles names = pre ++ f :: post)
    (h2 : ∀ g ∈ pre, ocExit g = 0) :
    ((∀ g ∈ f :: post, ocExit g = 0) →
        apply_cmd true true kubectlAvail loginOk ocExit apiOk pyUnexpected kubectlExit names =
          ⟨applierFiles names, [], [], false, ApplyOutcome.completed Strategy.nativeCli⟩) ∧
      (ocExit f ≠ 0 →
        apply_cmd true true kubectlAvail loginOk ocExit apiOk pyUnexpected kubectlExit names =
          ⟨pre ++ (f :: []), [], [], false, ApplyOutcome.subprocessFailure (ocExit f)⟩) := by
  constructor
  · intro h3
    have hall : ∀ g ∈ applierFiles names, ocExit g = 0 := by
      rw [h1]
      intro g hg
      rcases List.mem_append.mp hg with hg | hg
      · exact h2 g hg
      · exact h3 g hg
    have hloop := ocLoop_all_zero ocExit (applierFiles names) hall
    unfold apply_cmd apply_with_oc
    rw [hloop]
    rfl
  · intro h3
    have hloop := ocLoop_fail_fast ocExit pre f post h2 h3
    unfold apply_cmd apply_with_oc
    rw [h1, hloop]
    rfl

/-- Closed witness for C1: the directory lists `b.yml` then `a.yml`, and
`oc` exits 3 on `a.yml`. The sorted selection is `a.yml`, `b.yml`; only
`a.yml` is invoked, `b.yml` is never attempted, and the command fails
with exit code 3. -/
theorem c1_native_fail_fast_witness :
    applierFiles (bYml :: aYml :: []) = [] ++ aYml :: (bYml :: []) ∧
      (∀ g ∈ ([] : List (List Char)),
        (fun x => if x = aYml then 3 else 0 : List Char → Nat) g = 0) ∧
      apply_cmd true true false true (fun x => if x = aYml then 3 else 0)
          (fun _ => true) false 0 (bYml :: aYml :: []) =
        ⟨aYml :: [], [], [], false, ApplyOutcome.subprocessFailure 3⟩ :=
  ⟨by decide, by decide,
    (c1_native_fail_fast false true (fun x => if x = aYml then 3 else 0)
      (fun _ => true) false 0 (bYml :: aYml :: []) [] aYml (bYml :: [])
      (by decide) (by decide)).2 (by decide)⟩

/-- C2: under the API-client strategy, `_apply_with_python` submits every
matching file one at a time in sorted filename order — its `attempted`
trace is the full sorted selection whatever the per-file outcomes are —
and a per-file submission failure is only recorded as a warning, never
aborting, so all remaining files are still attempted (best-effort, in
contrast to the fail-fast native-CLI path of C1). -/
theorem c2_api_best_effort (loginOk : Bool) (apiOk : List Char → Bool)
    (names : List (List Char)) :
    apply_with_python loginOk apiOk names =
      ⟨!loginOk, applierFiles names,
        (applierFiles names).filter (fun f => !(apiOk f))⟩ := by
  unfold apply_with_python
  rw [pyLoop_char]

/-- C3: strategy selection of the `apply` command when the manifest
directory exists. With `oc` present the native CLI path runs per file
(no python submissions and no kubectl call); with `oc` absent and no
unexpected error the API-client path is used best-effort; with `oc`
absent and an unexpected error from the API-client path, the command
performs a single bulk `kubectl` apply when kubectl is present, and
fails with the tool-unavailable error when it is not. -/
theorem c3_strategy_fallback (kubectlAvail loginOk : Bool)
    (ocExit : List Char → Nat) (apiOk : List Char → Bool)
    (pyUnexpected : Bool) (kubectlExit : Nat) (names : List (List Char)) :
    ((apply_cmd true true kubectlAvail loginOk ocExit apiOk pyUnexpected
          kubectlExit names).pyAttempted = [] ∧
      (apply_cmd true true kubectlAvail loginOk ocExit apiOk pyUnexpected
          kubectlExit names).kubectlBulk = false ∧
      (apply_cmd true true kubectlAvail loginOk ocExit apiOk pyUnexpected
          kubectlExit names).ocInvocations = (apply_with_oc ocExit names).1) ∧
      apply_cmd true false kubectlAvail loginOk ocExit apiOk false kubectlExit names =
        ⟨[], applierFiles names, (applierFiles names).filter (fun f => !(apiOk f)),
          false, ApplyOutcome.completed Strategy.apiClient⟩ ∧
      apply_cmd true false true loginOk ocExit apiOk true kubectlExit names =
        ⟨[], [], [], true,
          if kubectlExit = 0 then ApplyOutcome.completed Strategy.secondaryCli
          else ApplyOutcome.subprocessFailure kubectlExit⟩ ∧
      apply_cmd true false false loginOk ocExit apiOk true kubectlExit names =
        ⟨[], [], [], false, ApplyOutcome.toolUnavailable⟩ := by
  refine ⟨?_, ?_, rfl, rfl⟩
  · unfold apply_cmd
    rcases h : (apply_with_oc ocExit names).2 with _ | code <;> simp [h]
  · unfold apply_cmd apply_with_python
    rw [pyLoop_char]
    rfl

/-- The pathlib `PurePath.suffix` rule applied to a bare filename: the
suffix is the part of the name from its last dot onwards, except that a
dot in first or last position yields no suffix (`Path(".j2").suffix`
is empty). -/
def nameSuffix (name : List Char) : List Char :=
  let r := name.reverse
  let pre := r.takeWhile (fun c => !(c = '.'))
  let rest := r.dropWhile (fun c => !(c = '.'))
  match rest with
  | [] => []
  | _ :: restTail =>
    if pre.isEmpty then []
    else if restTail.isEmpty then []
    else '.' :: pre.reverse

/-- The pathlib `PurePath.stem` rule: the name with its suffix removed
(the whole name when there is no suffix). -/
def nameStem (name : List Char) : List Char :=
  name.take (name.length - (nameSuffix name).length)

/-- The template extension `.j2` of the renderer. -/
def j2Ext : List Char := '.' :: 'j' :: '2' :: []

/-- A direct entry of the manifest source directory: its filename,
whether it is a subdirectory, and its file content. -/
structure DirEntry where
  name : List Char
  isDir : Bool
  content : List Char
deriving DecidableEq

/-- Oracle for the external Jinja renderer:
`env.get_template(tmpl.name).render(**vars_)` as a function of the
template name and the values mapping. -/
def Jinja : Type := List Char → StrMap → List Char

/-- One iteration of the render loop of the `render` command
(src/cicd/cli.py lines 108-118): skip subdirectories; render entries
whose pathlib suffix is `.j2` to the output file named by the stem;
copy every other entry verbatim under the same filename. -/
def renderEntry (jinja : Jinja) (vars : StrMap) (st : StrMap) (tmpl : DirEntry) : StrMap :=
  if tmpl.isDir then st
  else if nameSuffix tmpl.name = j2Ext then
    setKey st (nameStem tmpl.name) (jinja tmpl.name vars)
  else
    setKey st tmpl.name tmpl.content

/-- Embedding of the `render` command (src/cicd/cli.py lines 95-121):
load the values file, then fold the render loop over the direct entries
of the manifest source directory, writing into the output directory
state. -/
def render_cmd (jinja : Jinja) (vlines : Option (List (List Char)))
    (entries : List DirEntry) (outdirSt : StrMap) : StrMap :=
  let vars := load_env_values_opt vlines
  entries.foldl (renderEntry jinja vars) outdirSt

/-- One iteration of the render loop inside the `deploy` command
(src/cicd/cli.py lines 193-200), transliterated from that second code
site. -/
def deployRenderEntry (jinja : Jinja) (vars : StrMap) (st : StrMap)
    (tmpl : DirEntry) : StrMap :=
  if tmpl.isDir then st
  else if nameSuffix tmpl.name = j2Ext then
    setKey st (nameStem tmpl.name) (jinja tmpl.name vars)
  else
    setKey st tmpl.name tmpl.content

/-- Embedding of the first phase of the `deploy` command
(src/cicd/cli.py lines 186-200): load the values file and render every
direct entry of the manifest source directory into the build output
directory. -/
def deployRenderPhase (jinja : Jinja) (vlines : Option (List (List Char)))
    (entries : List DirEntry) (outdirSt : StrMap) : StrMap :=
  let vars := load_env_values_opt vlines
  entries.foldl (deployRenderEntry jinja vars) outdirSt

/-- C5: for identical source entries, identical values input, identical
Jinja behaviour and identical starting output-directory state, the
rendering performed by the standalone `render` command and the rendering
performed as the first phase of `deploy` produce identical output
directories (byte-identical files). -/
theorem c5_render_deploy_identical (jinja : Jinja)
    (vlines : Option (List (List Char))) (entries : List DirEntry)
    (outdirSt : StrMap) :
    render_cmd jinja vlines entries outdirSt =
      deployRenderPhase jinja vlines entries outdirSt := rfl

/-- The optional write one render-loop iteration performs: nothing for a
subdirectory, the rendered stem for a `.j2`-suffixed entry, the verbatim
copy for any other entry. -/
def renderWrite (jinja : Jinja) (vars : StrMap) (e : DirEntry) :
    Option (List Char × List Char) :=
  if e.isDir then none
  else if nameSuffix e.name = j2Ext then some (nameStem e.name, jinja e.name vars)
  else some (e.name, e.content)

theorem renderEntry_eq_write (jinja : Jinja) (vars : StrMap) (st : StrMap) (e : DirEntry) :
    renderEntry jinja vars st e =
      match renderWrite jinja vars e with
      | none => st
      | some kv => setKey st kv.1 kv.2 := by
  unfold renderEntry renderWrite
  by_cases hd : e.isDir = true
  · simp [hd]
  · by_cases hj : nameSuffix e.name = j2Ext <;> simp [hd, hj]

theorem render_cmd_eq_fold (jinja : Jinja) (vlines : Option (List (List Char)))
    (entries : List DirEntry) (st : StrMap) :
    render_cmd jinja vlines entries st =
      entries.foldl (fun m a =>
        match renderWrite jinja (load_env_values_opt vlines) a with
        | none => m
        | some kv => setKey m kv.1 kv.2) st := by
  unfold render_cmd
  induction entries using List.reverseRecOn generalizing st with
  | nil => rfl
  | append_singleton t a ih =>
    simp only [List.foldl_append, List.foldl_cons, List.foldl_nil, ih,
      renderEntry_eq_write]

/-- Claim C8 as written, reading "entry whose name ends in the template
extension" as a string-suffix test: every non-directory entry whose name
ends in `.j2` produces an output file named with that extension stripped
and holding the rendered content. This definition follows the words of
the claim, to be compared against the source-derived behaviour. -/
def claimC8statement : Prop :=
  ∀ (jinja : Jinja) (vlines : Option (List (List Char))) (entries : List DirEntry)
    (st : StrMap) (e : DirEntry), e ∈ entries → e.isDir = false →
      j2Ext.isSuffixOf e.name = true →
      render_cmd jinja vlines entries st (e.name.take (e.name.length - j2Ext.length)) =
        some (jinja e.name (load_env_values_opt vlines))

/-- C8 counterexample: a source directory whose only entry is a file
named exactly `.j2`. Its name ends in the template extension, so the
claim requires a rendered output under the stripped (empty) name, but
pathlib gives the name `.j2` an empty suffix, so the code copies the
file verbatim under `.j2` and writes nothing under the stripped name. -/
theorem c8_counterexample : ¬ claimC8statement := by
  intro h
  have hx := h (fun _ _ => 'R' :: []) none ((⟨j2Ext, false, 'h' :: []⟩ : DirEntry) :: [])
      emptyMap ⟨j2Ext, false, 'h' :: []⟩ (by decide) (by decide) (by decide)
  exact absurd hx (by decide)

/-- C8 (amended): rendering maps the direct entries of the source
directory onto the output directory: each non-directory entry whose
pathlib suffix is `.j2` (the final dot-delimited extension, where a dot
in first position starts no suffix, so a file named exactly `.j2` is not
a template) yields one output file named by its stem with the rendered
content, every other non-directory entry is copied verbatim under its
own name, subdirectories are skipped, the last entry writing a given
output name wins, and re-running the render overwrites the prior output
(same final state). -/
theorem c8_amended_render_mapping (jinja : Jinja)
    (vlines : Option (List (List Char))) (entries : List DirEntry) (st : StrMap) :
    (∀ n, render_cmd jinja vlines entries st n =
        match ((entries.filterMap (renderWrite jinja (load_env_values_opt vlines))).filter
            (fun kv => kv.1 = n)).getLast? with
        | some kv => some kv.2
        | none => st n) ∧
      render_cmd jinja vlines entries (render_cmd jinja vlines entries st) =
        render_cmd jinja vlines entries st := by
  have hpoint : ∀ (m : StrMap) (n : List Char), render_cmd jinja vlines entries m n =
      match ((entries.filterMap (renderWrite jinja (load_env_values_opt vlines))).filter
          (fun kv => kv.1 = n)).getLast? with
      | some kv => some kv.2
      | none => m n := by
    intro m n
    rw [render_cmd_eq_fold]
    exact foldl_writes_lookup (renderWrite jinja (load_env_values_opt vlines)) entries m n
  refine ⟨hpoint st, funext fun n => ?_⟩
  rw [hpoint (render_cmd jinja vlines entries st) n]
  cases hLast : ((entries.filterMap (renderWrite jinja (load_env_values_opt vlines))).filter
      (fun kv => kv.1 = n)).getLast? with
  | none =>
    rw [hpoint st n, hLast]
  | some kv =>
    rw [hpoint st n, hLast]

/-- Outcome of the `run-playbook` command: either the uncaught
`json.JSONDecodeError` from `json.loads` (the command fails before
anything else runs), or `typer.Exit(rc)` carrying the runner exit code
passed straight through. -/
inductive RunOutcome
  | malformedInput
  | exited (rc : Nat)
deriving DecidableEq

/-- Trace of one run of the `run-playbook` command: the
`ansible_runner.run` invocations made via `_run_ansible` (playbook name
and extra-vars mapping, in order) and the command outcome. -/
structure RunPlaybookResult where
  runnerCalls : List (List Char × StrMap)
  outcome : RunOutcome

/-- Embedding of `run_playbook` (src/cicd/cli.py lines 228-235):
`ev = json.loads(extravars) if extravars else {}` — a missing or empty
(falsy) extra-vars string yields the empty mapping without parsing;
otherwise `json.loads` runs, and a parse failure raises before
`_run_ansible` is ever called. On success the playbook runs once and the
command exits with the runner return code. `parse` is the `json.loads`
oracle (`none` models a raised decode error); `runnerRc` is the
`_run_ansible` exit-code oracle. -/
def run_playbook_cmd (parse : List Char → Option StrMap)
    (runnerRc : List Char → StrMap → Nat) (playbook : List Char)
    (extravars : Option (List Char)) : RunPlaybookResult :=
  match extravars with
  | none =>
    ⟨(playbook, emptyMap) :: [], RunOutcome.exited (runnerRc playbook emptyMap)⟩
  | some s =>
    if s.isEmpty then
      ⟨(playbook, emptyMap) :: [], RunOutcome.exited (runnerRc playbook emptyMap)⟩
    else
      match parse s with
      | none => ⟨[], RunOutcome.malformedInput⟩
      | some ev => ⟨(playbook, ev) :: [], RunOutcome.exited (runnerRc playbook ev)⟩

/-- C9: when the extra-variables blob of `run-playbook` is non-empty and
unparseable, the command fails immediately with the malformed-input
outcome and makes no runner invocation at all — the external playbook
runner is never started, so there is no partial execution. -/
theorem c9_malformed_input_immediate (parse : List Char → Option StrMap)
    (runnerRc : List Char → StrMap → Nat) (playbook : List Char) (s : List Char)
    (h1 : s.isEmpty = false) (h2 : parse s = none) :
    run_playbook_cmd parse runnerRc playbook (some s) =
      ⟨[], RunOutcome.malformedInput⟩ := by
  unfold run_playbook_cmd
  simp [h1, h2]

/-- Closed witness for C9: the blob `x` with a parser that rejects it;
the command reports malformed input and the runner call trace is
empty. -/
theorem c9_malformed_input_immediate_witness :
    (('x' :: []) : List Char).isEmpty = false ∧
      ((fun _ => none : List Char → Option StrMap) ('x' :: []) = none) ∧
      run_playbook_cmd (fun _ => none) (fun _ _ => 0) ('p' :: []) (some ('x' :: [])) =
        ⟨[], RunOutcome.malformedInput⟩ :=
  ⟨rfl, rfl, c9_malformed_input_immediate (fun _ => none) (fun _ _ => 0) ('p' :: [])
    ('x' :: []) rfl rfl⟩

end Cicd
